import Mathlib

/-!
Verification of the column-alignment and rendering pipeline of
`src/robot/writer/filewriters.py` (re-serialization of a parsed tabular test
document into aligned plain text).

The Python source is shallowly embedded: every traversal class of the source
(SeparatorRemover, SettingCleaner, ForLoopCleaner, ColumnWidthCounter,
ColumnAligner, Aligner, Writer) becomes a pure Lean function over an explicit
tree, with in-place token mutation replaced by returning the rewritten tree,
and Python index errors replaced by `Option` (`none` models a raised
exception).  Token kinds and the logical-line grouping live in
`robot.parsing` (outside the given source) and are modelled from the spec.
-/

namespace Robot

/-- Token kinds.  Modelled from the spec: the `Token` kind enumeration lives
in `robot.parsing.lexer` (outside the given source).  The spec data model
(section 3) lists structural kinds (separator, end-of-line, legacy indent)
and semantic kinds (keyword call, block name, table-header variants, setting
names); sections come in four distinct kinds (settings / variables /
test-cases / keywords), so the test-case and keyword table headers are
distinct kinds. -/
inductive TokenType where
  | eol
  | separator
  | oldForIndent
  | testcaseHeader
  | settingHeader
  | variableHeader
  | keywordHeader
  | name
  | keyword
  | settingName
  | forKw
  | endKw
  | other
deriving DecidableEq, Repr

/-- A token: a kind together with its rendered text (`Token.type`,
`Token.value` in the source). -/
structure Tok where
  type : TokenType
  value : String
deriving DecidableEq, Repr

/-- A statement: its dispatch kind (`statement.type`) and its flat token
list (`statement.tokens`).  Logical lines are derived from the token list by
`linesOf` below. -/
structure Statement where
  type : TokenType
  tokens : List Tok
deriving DecidableEq, Repr

/-- Helper for `linesOf`: accumulate tokens (in reverse) into the current
line; an end-of-line token closes the line and is kept at its end. -/
def linesOfGo (cur : List Tok) : List Tok → List (List Tok)
  | [] => if cur = [] then [] else [cur.reverse]
  | t :: ts =>
    if t.type = TokenType.eol then ((t :: cur).reverse) :: linesOfGo [] ts
    else linesOfGo (t :: cur) ts

/-- Modelled from the spec: the grouping of a statement token list into
logical lines (`Statement.lines` of `robot.parsing`, outside the given
source; spec section 3: a statement spans one or more logical lines).
Tokens accumulate into a line and each end-of-line token closes a line;
trailing tokens without an end-of-line form the final line.  Note that every
produced line is nonempty and that concatenating the lines gives back the
token list. -/
def linesOf (ts : List Tok) : List (List Tok) := linesOfGo [] ts

/-- Python `n * ' '`: a string of `n` spaces. -/
def spaces (n : Nat) : String := ⟨List.replicate n ' '⟩

/-- Python `s.strip()` restricted to whitespace: drop whitespace from both
ends. -/
def pyStrip (s : String) : String :=
  ⟨((s.data.dropWhile Char.isWhitespace).reverse.dropWhile Char.isWhitespace).reverse⟩

/-- Python `s.lower()` (per character). -/
def pyLower (s : String) : String := ⟨s.data.map Char.toLower⟩

/-- Helper for `pyTitle`: the flag records whether the previous character
was alphabetic (part of the current word). -/
def titleGo : Bool → List Char → List Char
  | _, [] => []
  | prevAlpha, c :: cs =>
    if c.isAlpha then
      (if prevAlpha then c.toLower else c.toUpper) :: titleGo true cs
    else c :: titleGo false cs

/-- Python `s.title()`: the first letter of every maximal alphabetic run is
uppercased, the rest lowercased. -/
def pyTitle (s : String) : String := ⟨titleGo false s.data⟩

/-- Python `s.rstrip()`: drop trailing whitespace. -/
def pyRstrip (s : String) : String :=
  ⟨(s.data.reverse.dropWhile Char.isWhitespace).reverse⟩

/-- Python `s.ljust(n)`: pad on the right with spaces to length `n`. -/
def pyLjust (s : String) (n : Nat) : String :=
  s ++ spaces (n - s.data.length)

/-- Python `s[:-4]`: all but the last four characters (empty when the string
has at most four characters). -/
def chop4 (s : String) : String := ⟨s.data.take (s.data.length - 4)⟩

/- ---------------------------------------------------------------------
SeparatorRemover (source lines 118-135).
--------------------------------------------------------------------- -/

/-- Text contributed to a preceding table-header token by the run of
separator tokens at the front of `ts`: each separator in the run contributes
its value minus the trailing four characters (`token.value[:-4]`), and the
run stops at the first non-separator token.  This is the functional reading
of the `prev` pointer loop of `_add_whitespace_to_header_values` (source
lines 127-135): `prev` is set at a header token and survives every following
separator, so the whole run is absorbed. -/
def sepRunExtension : List Tok → String
  | [] => ""
  | t :: ts =>
    if t.type = TokenType.separator then chop4 t.value ++ sepRunExtension ts
    else ""

/-- `_add_whitespace_to_header_values` (source lines 127-135): every
table-header token absorbs the chopped text of the separator run that
immediately follows it; all tokens stay in place with only header values
rewritten. -/
def addHeaderWhitespace : List Tok → List Tok
  | [] => []
  | t :: ts =>
    if t.type = TokenType.testcaseHeader then
      Tok.mk t.type (t.value ++ sepRunExtension ts) :: addHeaderWhitespace ts
    else t :: addHeaderWhitespace ts

/-- A token is structural when its kind is end-of-line, separator or legacy
for-loop indent (the removal set of source lines 123-125). -/
def isStructural (t : Tok) : Bool :=
  t.type = TokenType.eol ∨ t.type = TokenType.separator ∨ t.type = TokenType.oldForIndent

/-- `SeparatorRemover.visit_Statement` (source lines 120-125): table-header
statements first absorb their separator runs into the header tokens, then
every structural token is removed. -/
def separatorRemoverVisit (s : Statement) : Statement :=
  let toks := if s.type = TokenType.testcaseHeader then addHeaderWhitespace s.tokens
              else s.tokens
  Statement.mk s.type (toks.filter (fun t => !isStructural t))

/- ---------------------------------------------------------------------
SettingCleaner (source lines 138-147).
--------------------------------------------------------------------- -/

/-- The setting-name statement kinds (`Token.SETTING_TOKENS`).  Modelled
from the spec: the concrete member list lives in `robot.parsing.lexer`
(outside the given source); the spec only needs the family as a dispatch
set, represented here by the `settingName` kind. -/
def SETTING_TOKENS : List TokenType := [TokenType.settingName]

/-- Python `s.startswith('[')`: the string is nonempty and its first
character is an opening bracket. -/
def startsWithBracket (s : String) : Bool :=
  match s.data with
  | [] => false
  | c :: _ => c = '['

/-- The name rewrite of `SettingCleaner.visit_Statement` (source lines
142-146): if the stripped text begins with a bracket, drop the first and
last characters of the raw text, strip, lowercase and title-case the rest
and wrap it in brackets; otherwise lowercase and title-case the raw text. -/
def cleanSettingName (v : String) : String :=
  if startsWithBracket (pyStrip v) then
    "[" ++ pyTitle (pyLower (pyStrip ⟨(v.data.drop 1).dropLast⟩)) ++ "]"
  else pyTitle (pyLower v)

/-- `SettingCleaner.visit_Statement` (source lines 140-147): for statements
of a setting-name kind, rewrite the first token value (an empty token list
makes the source raise, modelled by `none`). -/
def settingCleanerVisit (s : Statement) : Option Statement :=
  if s.type ∈ SETTING_TOKENS then
    match s.tokens with
    | [] => none
    | t :: ts => some (Statement.mk s.type (Tok.mk t.type (cleanSettingName t.value) :: ts))
  else some s

/- ---------------------------------------------------------------------
Tree shape (spec section 3): blocks, loops, sections, documents.
--------------------------------------------------------------------- -/

/-- An item of a test/keyword block body.  Modelled from the spec (section
3): a body is an ordered sequence of statements and loop blocks, and a loop
is a header statement, a body of statements and an end statement. -/
inductive BodyItem where
  | stmt (s : Statement)
  | loop (header : Statement) (body : List Statement) (endSt : Statement)
deriving DecidableEq, Repr

/-- A named test or keyword block: a name statement plus a body. -/
structure TestOrKeyword where
  name : Statement
  body : List BodyItem
deriving DecidableEq, Repr

/-- A child of a section: a plain statement or a named block. -/
inductive SecItem where
  | stmt (s : Statement)
  | block (b : TestOrKeyword)
deriving DecidableEq, Repr

/-- A section: its kind (`section.type`), its header tokens
(`section.header`) and its children in document order (the header statement
itself is among the children, as in the parsed tree). -/
structure Section where
  type : TokenType
  header : List Tok
  children : List SecItem
deriving DecidableEq, Repr

/-- A document is an ordered sequence of sections. -/
def Document := List Section

/-- All statements of a body item in visitation order. -/
def bodyItemStatements : BodyItem → List Statement
  | BodyItem.stmt s => [s]
  | BodyItem.loop h b e => h :: (b ++ [e])

/-- All statements of a block in visitation order (name first). -/
def blockStatements (b : TestOrKeyword) : List Statement :=
  b.name :: (b.body.map bodyItemStatements).flatten

/-- All statements of a section child in visitation order. -/
def secItemStatements : SecItem → List Statement
  | SecItem.stmt s => [s]
  | SecItem.block b => blockStatements b

/-- All statements of a section in visitation order (the order in which the
generic visitor of the source reaches them). -/
def sectionStatements (sec : Section) : List Statement :=
  (sec.children.map secItemStatements).flatten

/- ---------------------------------------------------------------------
ColumnWidthCounter (source lines 75-96).
--------------------------------------------------------------------- -/

/-- One width update of `ColumnWidthCounter.visit_Statement` (source lines
90-95) for the token at column `col`: append the token length when `col`
reaches past the array, otherwise take the maximum at `col`. -/
def cwcUpdate (ws : List Nat) (col : Nat) (n : Nat) : List Nat :=
  if ws.length ≤ col then ws ++ [n]
  else if ws.getD col 0 < n then ws.set col n else ws

/-- Fold of `cwcUpdate` along a line; `col` starts at 1 (`index + 1`: column
0 is the reserved name column, source line 91). -/
def cwcGo (ws : List Nat) (col : Nat) : List Tok → List Nat
  | [] => ws
  | t :: ts => cwcGo (cwcUpdate ws col t.value.data.length) (col + 1) ts

/-- Width counting for one logical line (source lines 90-95). -/
def cwcLine (ws : List Nat) (line : List Tok) : List Nat := cwcGo ws 1 line

/-- `ColumnWidthCounter.visit_Statement` (source lines 82-96): block-name
statements only record the name width (never read afterwards; an empty
token list makes the source raise, modelled by `none`), header statements
are skipped, and every other statement contributes all its logical lines. -/
def cwcStatement (ws : List Nat) (s : Statement) : Option (List Nat) :=
  if s.type = TokenType.name then
    match s.tokens with
    | [] => none
    | _ :: _ => some ws
  else if s.type = TokenType.testcaseHeader then some ws
  else some ((linesOf s.tokens).foldl cwcLine ws)

/-- The counter visiting a list of statements in order. -/
def cwcStatements (ws : List Nat) : List Statement → Option (List Nat)
  | [] => some ws
  | s :: rest =>
    match cwcStatement ws s with
    | none => none
    | some ws2 => cwcStatements ws2 rest

/-- The width array after the counter visits a whole section, seeded from
the header token lengths (`Aligner.visit_Section`, source lines 107-109). -/
def counterWidths (sec : Section) : Option (List Nat) :=
  cwcStatements (sec.header.map (fun t => t.value.data.length)) (sectionStatements sec)

/-- The width list handed to the column aligner: the counter widths with
the last entry dropped (`counter.widths[:-1]`, source line 110). -/
def alignerInput (sec : Section) : Option (List Nat) :=
  (counterWidths sec).map List.dropLast

/- ---------------------------------------------------------------------
ColumnAligner (source lines 35-72).
--------------------------------------------------------------------- -/

/-- The traversal state of `ColumnAligner`: the remembered block-name length
(`_test_name_len`), the loop indentation depth (`indent`) and the per-block
first-data-line flag (`_first_statment_seen`). -/
structure CAState where
  testNameLen : Nat
  indent : Nat
  seen : Bool
deriving DecidableEq, Repr

/-- The token loop of `ColumnAligner.visit_Statement` (source lines 65-72):
tokens are paired with the width list, `expPos` accumulates widths (`Int`,
because the short-name correction can drive it negative), `linePos`
accumulates emitted text length, the correction subtracts the block-name
length once when the flag is still unset at a line start, and each token is
prepended `(expPos - linePos).toNat` spaces (Python space repetition clamps
a negative count to zero).  Unpaired trailing tokens are returned
unchanged. -/
def alignTokens (n : Nat) : List Tok → List Nat → Nat → Int → Bool → List Tok × Bool
  | [], _, _, _, seen => ([], seen)
  | t :: ts, [], _, _, seen => (t :: ts, seen)
  | t :: ts, w :: ws, lp, ep, seen =>
    let fire := lp == 0 && !seen && decide (n < 18)
    let e2 : Int := if fire then ep + w - n else ep + w
    let seen2 := if fire then true else seen
    let v := spaces (e2 - (lp : Int)).toNat ++ t.value
    let rest := alignTokens n ts ws (lp + v.data.length) e2 seen2
    (Tok.mk t.type v :: rest.1, rest.2)

/-- The per-line width list (source lines 61-64): a fresh copy of the
section widths, with the first two entries merged when the line is a nested
keyword call (`indent > 0` and first token of keyword kind).  `none` models
the index errors the source raises on an empty line (it reads `line[0]`)
or on a width list with fewer than two entries (it pops entry 0 and then
writes entry 0). -/
def effectiveWidths (widths : List Nat) (indent : Nat) (line : List Tok) : Option (List Nat) :=
  if 0 < indent then
    match line with
    | [] => none
    | t :: _ =>
      if t.type = TokenType.keyword then
        match widths with
        | w0 :: w1 :: ws => some ((w1 + w0) :: ws)
        | _ => none
      else some widths
  else some widths

/-- One logical line of `ColumnAligner.visit_Statement` (source lines
58-72): compute the per-line width list and run the token loop from
positions 0. -/
def alignLine (widths : List Nat) (n : Nat) (indent : Nat) (seen : Bool) (line : List Tok) :
    Option (List Tok × Bool) :=
  (effectiveWidths widths indent line).map (fun ws => alignTokens n line ws 0 0 seen)

/-- All logical lines of one statement, threading the first-data-line
flag. -/
def caLines (widths : List Nat) (n : Nat) (indent : Nat) :
    List (List Tok) → Bool → Option (List (List Tok) × Bool)
  | [], seen => some ([], seen)
  | l :: ls, seen =>
    match alignLine widths n indent seen l with
    | none => none
    | some (l2, seen2) =>
      match caLines widths n indent ls seen2 with
      | none => none
      | some (ls2, seen3) => some (l2 :: ls2, seen3)

/-- `ColumnAligner.visit_Statement` (source lines 52-72): header statements
are skipped, block-name statements record the name length (empty token list
modelled by `none`), every other statement has its lines aligned and its
token list rebuilt from them. -/
def caStatement (widths : List Nat) (st : CAState) (s : Statement) :
    Option (Statement × CAState) :=
  if s.type = TokenType.testcaseHeader then some (s, st)
  else if s.type = TokenType.name then
    match s.tokens with
    | [] => none
    | t :: _ => some (s, CAState.mk t.value.data.length st.indent st.seen)
  else
    match caLines widths st.testNameLen st.indent (linesOf s.tokens) st.seen with
    | none => none
    | some (ls2, seen2) =>
      some (Statement.mk s.type ls2.flatten, CAState.mk st.testNameLen st.indent seen2)

/-- The aligner visiting a list of statements in order. -/
def caStatements (widths : List Nat) : List Statement → CAState → Option (List Statement × CAState)
  | [], st => some ([], st)
  | s :: rest, st =>
    match caStatement widths st s with
    | none => none
    | some (s2, st2) =>
      match caStatements widths rest st2 with
      | none => none
      | some (rest2, st3) => some (s2 :: rest2, st3)

/-- `ColumnAligner.visit_ForLoop` (source lines 47-50) and the statement
case: a loop raises the indentation depth around its header, body and end
statements; a plain statement is visited directly. -/
def caBodyItem (widths : List Nat) (st : CAState) : BodyItem → Option (BodyItem × CAState)
  | BodyItem.stmt s =>
    match caStatement widths st s with
    | none => none
    | some (s2, st2) => some (BodyItem.stmt s2, st2)
  | BodyItem.loop h b e =>
    match caStatement widths (CAState.mk st.testNameLen (st.indent + 1) st.seen) h with
    | none => none
    | some (h2, st2) =>
      match caStatements widths b st2 with
      | none => none
      | some (b2, st3) =>
        match caStatement widths st3 e with
        | none => none
        | some (e2, st4) =>
          some (BodyItem.loop h2 b2 e2, CAState.mk st4.testNameLen (st4.indent - 1) st4.seen)

/-- The aligner visiting a block body in order. -/
def caBodyItems (widths : List Nat) : List BodyItem → CAState → Option (List BodyItem × CAState)
  | [], st => some ([], st)
  | i :: rest, st =>
    match caBodyItem widths st i with
    | none => none
    | some (i2, st2) =>
      match caBodyItems widths rest st2 with
      | none => none
      | some (rest2, st3) => some (i2 :: rest2, st3)

/-- `ColumnAligner.visit_TestOrKeyword` (source lines 43-45): entering a
block clears the first-data-line flag, then the name statement and the body
are visited. -/
def caBlock (widths : List Nat) (st : CAState) (b : TestOrKeyword) :
    Option (TestOrKeyword × CAState) :=
  match caStatement widths (CAState.mk st.testNameLen st.indent false) b.name with
  | none => none
  | some (n2, st1) =>
    match caBodyItems widths b.body st1 with
    | none => none
    | some (b2, st2) => some (TestOrKeyword.mk n2 b2, st2)

/-- The aligner visiting the children of a section. -/
def caSecItems (widths : List Nat) : List SecItem → CAState → Option (List SecItem × CAState)
  | [], st => some ([], st)
  | SecItem.stmt s :: rest, st =>
    match caStatement widths st s with
    | none => none
    | some (s2, st2) =>
      match caSecItems widths rest st2 with
      | none => none
      | some (rest2, st3) => some (SecItem.stmt s2 :: rest2, st3)
  | SecItem.block b :: rest, st =>
    match caBlock widths st b with
    | none => none
    | some (b2, st2) =>
      match caSecItems widths rest st2 with
      | none => none
      | some (rest2, st3) => some (SecItem.block b2 :: rest2, st3)

/-- `ColumnAligner(...).visit(section)` (source line 110): a fresh aligner
(name length 0, depth 0, flag clear) visits the section children. -/
def caSection (widths : List Nat) (sec : Section) : Option Section :=
  match caSecItems widths sec.children (CAState.mk 0 0 false) with
  | none => none
  | some (cs, _) => some (Section.mk sec.type sec.header cs)

/- ---------------------------------------------------------------------
Aligner (source lines 99-115).
--------------------------------------------------------------------- -/

/-- `Aligner.visit_Statement` applied to one logical line (source lines
113-115): the first token is left-justified to width 14 (an empty line
would make the source raise; `linesOf` never produces one). -/
def ljustLine (l : List Tok) : Option (List Tok) :=
  match l with
  | [] => none
  | t :: ts => some (Tok.mk t.type (pyLjust t.value 14) :: ts)

/-- `Aligner.visit_Statement` (source lines 112-115): every logical line of
the statement has its first token left-justified to 14 characters. -/
def ljustStatement (s : Statement) : Option Statement :=
  match (linesOf s.tokens).mapM ljustLine with
  | none => none
  | some ls => some (Statement.mk s.type ls.flatten)

/-- Apply a statement rewrite to every statement of a body item. -/
def bodyItemMapM (f : Statement → Option Statement) : BodyItem → Option BodyItem
  | BodyItem.stmt s => (f s).map BodyItem.stmt
  | BodyItem.loop h b e =>
    match f h, b.mapM f, f e with
    | some h2, some b2, some e2 => some (BodyItem.loop h2 b2 e2)
    | _, _, _ => none

/-- Apply a statement rewrite to every statement of a block. -/
def blockMapM (f : Statement → Option Statement) (b : TestOrKeyword) : Option TestOrKeyword :=
  match f b.name, b.body.mapM (bodyItemMapM f) with
  | some n2, some b2 => some (TestOrKeyword.mk n2 b2)
  | _, _ => none

/-- Apply a statement rewrite to every statement of a section child. -/
def secItemMapM (f : Statement → Option Statement) : SecItem → Option SecItem
  | SecItem.stmt s => (f s).map SecItem.stmt
  | SecItem.block b => (blockMapM f b).map SecItem.block

/-- Apply a statement rewrite to every statement of a section. -/
def sectionMapM (f : Statement → Option Statement) (sec : Section) : Option Section :=
  (sec.children.mapM (secItemMapM f)).map (fun cs => Section.mk sec.type sec.header cs)

/-- `Aligner.visit_Section` (source lines 102-110): settings and variables
sections have every statement first token left-justified to 14; a test-case
table section with a multi-column header is measured by the counter and
padded by the column aligner on the counter widths minus their last entry;
every other section (in particular a keyword table section) is left
untouched, its children unvisited. -/
def alignerVisitSection (sec : Section) : Option Section :=
  if sec.type = TokenType.settingHeader ∨ sec.type = TokenType.variableHeader then
    sectionMapM ljustStatement sec
  else if sec.type = TokenType.testcaseHeader then
    if 1 < sec.header.length then
      match alignerInput sec with
      | none => none
      | some ws => caSection ws sec
    else some sec
  else some sec

/- ---------------------------------------------------------------------
ForLoopCleaner (source lines 150-154).
--------------------------------------------------------------------- -/

/-- Overwrite the value of the first token of a statement (`none` models the
index error the source raises on an empty token list). -/
def setFirstValue (s : Statement) (v : String) : Option Statement :=
  match s.tokens with
  | [] => none
  | t :: ts => some (Statement.mk s.type (Tok.mk t.type v :: ts))

/-- `ForLoopCleaner.visit_ForLoop` (source lines 152-154): the first token
of a loop header becomes the literal FOR marker and the first token of its
end statement the literal END marker. -/
def forLoopCleanItem : BodyItem → Option BodyItem
  | BodyItem.stmt s => some (BodyItem.stmt s)
  | BodyItem.loop h b e =>
    match setFirstValue h "FOR", setFirstValue e "END" with
    | some h2, some e2 => some (BodyItem.loop h2 b e2)
    | _, _ => none

/-- The loop cleaner over a block. -/
def forLoopCleanBlock (b : TestOrKeyword) : Option TestOrKeyword :=
  (b.body.mapM forLoopCleanItem).map (fun b2 => TestOrKeyword.mk b.name b2)

/-- The loop cleaner over a section child. -/
def forLoopCleanSecItem : SecItem → Option SecItem
  | SecItem.stmt s => some (SecItem.stmt s)
  | SecItem.block b => (forLoopCleanBlock b).map SecItem.block

/-- The loop cleaner over a section. -/
def forLoopCleanSection (sec : Section) : Option Section :=
  (sec.children.mapM forLoopCleanSecItem).map (fun cs => Section.mk sec.type sec.header cs)

/- ---------------------------------------------------------------------
Writer (source lines 157-214).
--------------------------------------------------------------------- -/

/-- The writer configuration (spec section 4.6): dialect selection and the
space-mode column gap. -/
structure WConfig where
  pipeSeparated : Bool
  txtSeparatingSpaces : Nat
deriving DecidableEq, Repr

/-- `Writer.__init__` (source line 164): the column separator is a literal
pipe gap in pipe mode and a run of spaces otherwise. -/
def wSeparator (c : WConfig) : String :=
  if c.pipeSeparated then " | " else spaces c.txtSeparatingSpaces

/-- `Writer.__init__` (source line 165): the indentation marker. -/
def wIndentMarker (c : WConfig) : String :=
  if c.pipeSeparated then "   | " else wSeparator c

/-- Python string repetition `n * s`. -/
def strRepeat (n : Nat) (s : String) : String := String.join (List.replicate n s)

/-- One printed row of `Writer._write_statement` (source lines 204-211):
the indentation, then the token values joined by the separator; pipe mode
wraps the row in pipes and space mode right-trims it. -/
def renderRow (c : WConfig) (indentStr : String) (l : List Tok) : String :=
  let row := indentStr ++ String.intercalate (wSeparator c) (l.map Tok.value)
  if c.pipeSeparated then "| " ++ row ++ " |" else pyRstrip row

/-- `Writer._write_statement` (source lines 203-214): every logical line is
rendered as a row, each followed by a newline unless suppression was
requested. -/
def writeStatementStr (c : WConfig) (indent : Nat) (nl : Bool) (s : Statement) : String :=
  String.join ((linesOf s.tokens).map (fun l =>
    renderRow c (strRepeat indent (wIndentMarker c)) l ++ (if nl then "\n" else "")))

/-- Truthiness of the `_test_case_section_headers` field, which holds
`None`, `False` (both modelled by `none`) or a list of header lengths: only
a nonempty list is truthy. -/
def truthy : Option (List Nat) → Bool
  | none => false
  | some l => !l.isEmpty

/-- The value of `_test_case_section_headers` while a section is being
written (source lines 176-179): the header token lengths when the section
is a multi-column test-case table, otherwise the falsy value carried into
the section (it is `None` initially and reset to `False` at the end of
every section, so at section entry it is always falsy). -/
def testCaseSectionHeaders (sec : Section) : Option (List Nat) :=
  if sec.type = TokenType.testcaseHeader ∧ 1 < sec.header.length then
    some (sec.header.map (fun t => t.value.data.length))
  else none

/-- The newline decision of `Writer.visit_TestOrKeyword` (source lines
188-190): the name line keeps its newline when the headers field is falsy
or the name length is at least 18. -/
def writeNewlineFlag (flag : Option (List Nat)) (nameLen : Nat) : Bool :=
  !truthy flag || decide (18 ≤ nameLen)

/-- `Writer.visit_ForLoop` (source lines 196-201) and the plain statement
case: a loop writes its header, its body one level deeper, then its end. -/
def wBodyItem (c : WConfig) (indent : Nat) : BodyItem → String
  | BodyItem.stmt s => writeStatementStr c indent true s
  | BodyItem.loop h b e =>
    writeStatementStr c indent true h ++
    String.join (b.map (writeStatementStr c (indent + 1) true)) ++
    writeStatementStr c indent true e

/-- `Writer.visit_TestOrKeyword` (source lines 185-194): a blank line
before every block but the first of its section, the name statement with
the newline decision, then the body one level deeper.  `none` models the
index error on an empty name token list. -/
def wBlock (c : WConfig) (flag : Option (List Nat)) (indent : Nat) (seenKw : Bool)
    (b : TestOrKeyword) : Option String :=
  match b.name.tokens with
  | [] => none
  | nt :: _ =>
    some ((if seenKw then "\n" else "") ++
      writeStatementStr c indent (writeNewlineFlag flag nt.value.data.length) b.name ++
      String.join (b.body.map (wBodyItem c (indent + 1))))

/-- The writer over the children of one section, threading the
block-already-seen flag. -/
def wSecItems (c : WConfig) (flag : Option (List Nat)) :
    List SecItem → Bool → Option String
  | [], _ => some ""
  | SecItem.stmt s :: rest, seenKw =>
    (wSecItems c flag rest seenKw).map (fun r => writeStatementStr c 0 true s ++ r)
  | SecItem.block b :: rest, seenKw =>
    match wBlock c flag 0 seenKw b with
    | none => none
    | some out => (wSecItems c flag rest true).map (fun r => out ++ r)

/-- `Writer.visit_Section` (source lines 173-183): a blank line before
every section but the first, then the children with the headers field
computed for this section. -/
def wSection (c : WConfig) (sec : Section) (sectionSeen : Bool) : Option String :=
  (wSecItems c (testCaseSectionHeaders sec) sec.children false).map
    (fun out => (if sectionSeen then "\n" else "") ++ out)

/-- The writer over a whole document. -/
def writeDocument (c : WConfig) : List Section → Bool → Option String
  | [], _ => some ""
  | sec :: rest, seen =>
    match wSection c sec seen with
    | none => none
    | some out => (writeDocument c rest true).map (fun r => out ++ r)

/- ---------------------------------------------------------------------
The pipeline (`_DataFileWriter.write`, source lines 223-228).
--------------------------------------------------------------------- -/

/-- Apply a (total) statement rewrite to every statement of a body item. -/
def bodyItemMap (f : Statement → Statement) : BodyItem → BodyItem
  | BodyItem.stmt s => BodyItem.stmt (f s)
  | BodyItem.loop h b e => BodyItem.loop (f h) (b.map f) (f e)

/-- Apply a (total) statement rewrite to every statement of a section. -/
def sectionMap (f : Statement → Statement) (sec : Section) : Section :=
  Section.mk sec.type sec.header (sec.children.map (fun i =>
    match i with
    | SecItem.stmt s => SecItem.stmt (f s)
    | SecItem.block b => SecItem.block (TestOrKeyword.mk (f b.name) (b.body.map (bodyItemMap f)))))

/-- The separator remover over a section (total: it raises nothing). -/
def separatorRemoverSection (sec : Section) : Section :=
  sectionMap separatorRemoverVisit sec

/-- `_DataFileWriter.write` (source lines 223-228): the five passes in
order, a `none` modelling any raised exception. -/
def writeModel (c : WConfig) (doc : List Section) : Option String :=
  match (doc.map separatorRemoverSection).mapM (sectionMapM settingCleanerVisit) with
  | none => none
  | some d2 =>
    match d2.mapM forLoopCleanSection with
    | none => none
    | some d3 =>
      match d3.mapM alignerVisitSection with
      | none => none
      | some d4 => writeDocument c d4 false

/- ---------------------------------------------------------------------
Reference definitions following the words of the spec (section 4.5) for
the short-name correction: the subtraction is applied structurally, exactly
once, at the first token of the first nonempty data line of a block, with
no in-loop gating.  These are compared with the source embedding above.
--------------------------------------------------------------------- -/

/-- The token loop with no correction logic at all: widths simply
accumulate from the given starting offset. -/
def alignTokensSpec : List Tok → List Nat → Nat → Int → List Tok
  | [], _, _, _ => []
  | t :: ts, [], _, _ => t :: ts
  | t :: ts, w :: ws, lp, ep =>
    let e2 : Int := ep + w
    let v := spaces (e2 - (lp : Int)).toNat ++ t.value
    Tok.mk t.type v :: alignTokensSpec ts ws (lp + v.data.length) e2

/-- Spec reading of one line: if the block has not fired its correction yet
and this line actually pairs a token with a width, this is the first data
line of the block, so the whole line is laid out with its expected offsets
lowered by the name length once (equivalently, the name length is
subtracted from `expPos` at the first token), and the fired flag is set;
otherwise the line is laid out plainly. -/
def alignLineSpec (widths : List Nat) (n : Nat) (indent : Nat) (fired : Bool)
    (line : List Tok) : Option (List Tok × Bool) :=
  (effectiveWidths widths indent line).map (fun ws =>
    if !fired && !line.isEmpty && !ws.isEmpty then
      (alignTokensSpec line ws 0 (-(n : Int)), true)
    else
      (alignTokensSpec line ws 0 0, fired))

/-- Spec reading of the lines of one statement. -/
def caLinesSpec (widths : List Nat) (n : Nat) (indent : Nat) :
    List (List Tok) → Bool → Option (List (List Tok) × Bool)
  | [], fired => some ([], fired)
  | l :: ls, fired =>
    match alignLineSpec widths n indent fired l with
    | none => none
    | some (l2, fired2) =>
      match caLinesSpec widths n indent ls fired2 with
      | none => none
      | some (ls2, fired3) => some (l2 :: ls2, fired3)

/-- Spec reading of one statement (dispatch as in the source). -/
def caStatementSpec (widths : List Nat) (st : CAState) (s : Statement) :
    Option (Statement × CAState) :=
  if s.type = TokenType.testcaseHeader then some (s, st)
  else if s.type = TokenType.name then
    match s.tokens with
    | [] => none
    | t :: _ => some (s, CAState.mk t.value.data.length st.indent st.seen)
  else
    match caLinesSpec widths st.testNameLen st.indent (linesOf s.tokens) st.seen with
    | none => none
    | some (ls2, fired2) =>
      some (Statement.mk s.type ls2.flatten, CAState.mk st.testNameLen st.indent fired2)

/-- Spec reading over a list of statements. -/
def caStatementsSpec (widths : List Nat) : List Statement → CAState → Option (List Statement × CAState)
  | [], st => some ([], st)
  | s :: rest, st =>
    match caStatementSpec widths st s with
    | none => none
    | some (s2, st2) =>
      match caStatementsSpec widths rest st2 with
      | none => none
      | some (rest2, st3) => some (s2 :: rest2, st3)

/-- Spec reading over a body item. -/
def caBodyItemSpec (widths : List Nat) (st : CAState) : BodyItem → Option (BodyItem × CAState)
  | BodyItem.stmt s =>
    match caStatementSpec widths st s with
    | none => none
    | some (s2, st2) => some (BodyItem.stmt s2, st2)
  | BodyItem.loop h b e =>
    match caStatementSpec widths (CAState.mk st.testNameLen (st.indent + 1) st.seen) h with
    | none => none
    | some (h2, st2) =>
      match caStatementsSpec widths b st2 with
      | none => none
      | some (b2, st3) =>
        match caStatementSpec widths st3 e with
        | none => none
        | some (e2, st4) =>
          some (BodyItem.loop h2 b2 e2, CAState.mk st4.testNameLen (st4.indent - 1) st4.seen)

/-- Spec reading over a block body. -/
def caBodyItemsSpec (widths : List Nat) : List BodyItem → CAState → Option (List BodyItem × CAState)
  | [], st => some ([], st)
  | i :: rest, st =>
    match caBodyItemSpec widths st i with
    | none => none
    | some (i2, st2) =>
      match caBodyItemsSpec widths rest st2 with
      | none => none
      | some (rest2, st3) => some (i2 :: rest2, st3)

/-- Spec reading of a whole block: the fired flag is cleared when the block
begins, the name is recorded, and the correction is then applied exactly
once, at the first token of the first data line. -/
def caBlockSpec (widths : List Nat) (st : CAState) (b : TestOrKeyword) :
    Option (TestOrKeyword × CAState) :=
  match caStatementSpec widths (CAState.mk st.testNameLen st.indent false) b.name with
  | none => none
  | some (n2, st1) =>
    match caBodyItemsSpec widths b.body st1 with
    | none => none
    | some (b2, st2) => some (TestOrKeyword.mk n2 b2, st2)

/-- No statement of the list is a block-name statement. -/
def stmtsNoName (l : List Statement) : Bool :=
  l.all (fun s => !(s.type = TokenType.name : Bool))

/-- No statement of the body item is a block-name statement. -/
def bodyItemNoName : BodyItem → Bool
  | BodyItem.stmt s => !(s.type = TokenType.name : Bool)
  | BodyItem.loop h b e =>
    !(h.type = TokenType.name : Bool) && stmtsNoName b &&
      !(e.type = TokenType.name : Bool)

/-- No statement of the body is a block-name statement (body rows never
re-record the block name). -/
def bodyNoName (l : List BodyItem) : Bool := l.all bodyItemNoName

/- ---------------------------------------------------------------------
Concrete demonstration values used by counterexamples and witnesses.
--------------------------------------------------------------------- -/

/-- A block with a one-character name and one two-token call row. -/
def demoBlk : TestOrKeyword :=
  TestOrKeyword.mk (Statement.mk TokenType.name [Tok.mk TokenType.name "T"])
    [BodyItem.stmt (Statement.mk TokenType.keyword
      [Tok.mk TokenType.keyword "Log", Tok.mk TokenType.other "hi"])]

/-- A keyword-table section with a two-column header and one block. -/
def demoKwSec : Section :=
  Section.mk TokenType.keywordHeader
    [Tok.mk TokenType.keywordHeader "Test Case", Tok.mk TokenType.other "Action"]
    [SecItem.stmt (Statement.mk TokenType.testcaseHeader
      [Tok.mk TokenType.testcaseHeader "*** K ***"]),
     SecItem.block demoBlk]

/-- A test-case-table section with the same two-column header and block. -/
def demoTcSec : Section :=
  Section.mk TokenType.testcaseHeader
    [Tok.mk TokenType.testcaseHeader "Test Case", Tok.mk TokenType.other "Action"]
    [SecItem.stmt (Statement.mk TokenType.testcaseHeader
      [Tok.mk TokenType.testcaseHeader "*** Test Cases ***"]),
     SecItem.block demoBlk]

/-- A test-case-table section whose header has zero columns. -/
def zeroSec : Section :=
  Section.mk TokenType.testcaseHeader []
    [SecItem.stmt (Statement.mk TokenType.testcaseHeader
      [Tok.mk TokenType.testcaseHeader "*** Test Cases ***"]),
     SecItem.block demoBlk]

/- ---------------------------------------------------------------------
Theorems.
--------------------------------------------------------------------- -/

theorem spaces_zero_append (s : String) : spaces 0 ++ s = s := by
  cases s with
  | mk d => rfl

/-- The padding relation of claim C6, reflexively satisfied (zero spaces). -/
theorem forall2_pad_self (l : List Tok) :
    List.Forall₂ (fun tin tout =>
      tout.type = tin.type ∧ ∃ k : Nat, tout.value = spaces k ++ tin.value) l l := by
  induction l with
  | nil => exact List.Forall₂.nil
  | cons t ts ih => exact List.Forall₂.cons ⟨rfl, 0, (spaces_zero_append t.value).symm⟩ ih

/-- Every token leaving the aligner token loop is its input token with some
number of leading spaces prepended (in particular it is never truncated). -/
theorem alignTokens_forall2 (n : Nat) :
    ∀ (line : List Tok) (ws : List Nat) (lp : Nat) (ep : Int) (seen : Bool),
      List.Forall₂ (fun tin tout =>
        tout.type = tin.type ∧ ∃ k : Nat, tout.value = spaces k ++ tin.value)
        line (alignTokens n line ws lp ep seen).1
  | [], ws, lp, ep, seen => by
    simp only [alignTokens]
    exact List.Forall₂.nil
  | t :: ts, [], lp, ep, seen => by
    simp only [alignTokens]
    exact forall2_pad_self (t :: ts)
  | t :: ts, w :: ws, lp, ep, seen => by
    simp only [alignTokens]
    exact List.Forall₂.cons ⟨rfl, _, rfl⟩ (alignTokens_forall2 n ts ws _ _ _)

/-- Tokens beyond the width list are returned untouched by the token loop. -/
theorem alignTokens_skip (n : Nat) :
    ∀ (line : List Tok) (ws : List Nat) (lp : Nat) (ep : Int) (seen : Bool) (i : Nat),
      ws.length ≤ i →
        List.get? (alignTokens n line ws lp ep seen).1 i = List.get? line i
  | [], ws, lp, ep, seen, i, h => by simp [alignTokens]
  | t :: ts, [], lp, ep, seen, i, h => by simp [alignTokens]
  | t :: ts, w :: ws, lp, ep, seen, i, h => by
    match i, h with
    | j + 1, h =>
      simp only [alignTokens, List.get?_cons_succ]
      exact alignTokens_skip n ts ws _ _ _ j (Nat.le_of_succ_le_succ h)

/-- Once the first-data-line flag is set, the token loop applies no
correction at all and keeps the flag set. -/
theorem alignTokens_seen (n : Nat) :
    ∀ (line : List Tok) (ws : List Nat) (lp : Nat) (ep : Int),
      alignTokens n line ws lp ep true = (alignTokensSpec line ws lp ep, true)
  | [], ws, lp, ep => by cases ws <;> simp [alignTokens, alignTokensSpec]
  | t :: ts, [], lp, ep => by simp [alignTokens, alignTokensSpec]
  | t :: ts, w :: ws, lp, ep => by
    simp only [alignTokens, alignTokensSpec]
    simp [alignTokens_seen n ts ws]

/-- With the flag still clear and a short name, the loop fires at its very
first token: the run is the correction-free layout started from an expected
position lowered by the name length, and the flag comes out set. -/
theorem alignTokens_fire (n : Nat) (h : n < 18) (t : Tok) (ts : List Tok) (w : Nat)
    (ws : List Nat) (ep : Int) :
    alignTokens n (t :: ts) (w :: ws) 0 ep false =
      (alignTokensSpec (t :: ts) (w :: ws) 0 (ep - n), true) := by
  have hd : decide (n < 18) = true := decide_eq_true h
  have harith : ep + (w : Int) - (n : Int) = ep - (n : Int) + (w : Int) := by ring
  simp only [alignTokens, alignTokensSpec]
  simp [hd, harith, alignTokens_seen]

/-- For a short name, one line of the source aligner equals the spec
reading of that line. -/
theorem alignLine_spec (widths : List Nat) (n indent : Nat) (h : n < 18) :
    ∀ (seen : Bool) (line : List Tok),
      alignLine widths n indent seen line = alignLineSpec widths n indent seen line := by
  intro seen line
  unfold alignLine alignLineSpec
  cases hew : effectiveWidths widths indent line with
  | none => rfl
  | some ws =>
    simp only [Option.map_some']
    congr 1
    cases seen with
    | true => simp [alignTokens_seen]
    | false =>
      cases line with
      | nil => simp [alignTokens, alignTokensSpec]
      | cons t ts =>
        cases ws with
        | nil => simp [alignTokens, alignTokensSpec]
        | cons w ws2 => simp [alignTokens_fire n h, List.isEmpty]

/-- For a short name, the lines of one statement are aligned exactly as the
spec reading prescribes. -/
theorem caLines_spec (widths : List Nat) (n indent : Nat) (h : n < 18) :
    ∀ (ls : List (List Tok)) (seen : Bool),
      caLines widths n indent ls seen = caLinesSpec widths n indent ls seen
  | [], seen => rfl
  | l :: ls, seen => by
    unfold caLines caLinesSpec
    rw [alignLine_spec widths n indent h]
    cases alignLineSpec widths n indent seen l with
    | none => rfl
    | some p =>
      cases p with
      | mk l2 seen2 =>
        dsimp only
        rw [caLines_spec widths n indent h ls seen2]

/-- For a short remembered name, one statement of the source aligner equals
the spec reading. -/
theorem caStatement_spec (widths : List Nat) (st : CAState) (s : Statement)
    (h : st.testNameLen < 18) :
    caStatement widths st s = caStatementSpec widths st s := by
  unfold caStatement caStatementSpec
  by_cases h1 : s.type = TokenType.testcaseHeader
  · simp [h1]
  · simp only [if_neg h1]
    by_cases h2 : s.type = TokenType.name
    · simp [h2]
    · simp only [if_neg h2]
      rw [caLines_spec widths st.testNameLen st.indent h]

/-- A statement that is not a block-name row never changes the remembered
name length nor the indentation depth. -/
theorem caStatement_preserves (widths : List Nat) (st : CAState) (s : Statement)
    (s2 : Statement) (st2 : CAState) (hne : s.type ≠ TokenType.name)
    (h : caStatement widths st s = some (s2, st2)) :
    st2.testNameLen = st.testNameLen ∧ st2.indent = st.indent := by
  unfold caStatement at h
  by_cases h1 : s.type = TokenType.testcaseHeader
  · rw [if_pos h1] at h
    have h5 : st = st2 := congrArg Prod.snd (Option.some.inj h)
    rw [← h5]
    exact ⟨rfl, rfl⟩
  · rw [if_neg h1, if_neg hne] at h
    cases hc : caLines widths st.testNameLen st.indent (linesOf s.tokens) st.seen with
    | none => rw [hc] at h; exact absurd h (by simp)
    | some p =>
      cases p with
      | mk ls2 seen2 =>
        rw [hc] at h
        have h6 : CAState.mk st.testNameLen st.indent seen2 = st2 :=
          congrArg Prod.snd (Option.some.inj h)
        rw [← h6]
        exact ⟨rfl, rfl⟩

/-- A list of non-name statements never changes the remembered name length
nor the indentation depth. -/
theorem caStatements_preserves (widths : List Nat) :
    ∀ (l : List Statement) (st : CAState) (l2 : List Statement) (st2 : CAState),
      caStatements widths l st = some (l2, st2) → stmtsNoName l = true →
      st2.testNameLen = st.testNameLen ∧ st2.indent = st.indent
  | [], st, l2, st2, h, _ => by
    have h5 : st = st2 := congrArg Prod.snd (Option.some.inj h)
    rw [← h5]
    exact ⟨rfl, rfl⟩
  | s :: rest, st, l2, st2, h, hn => by
    have hn3 : ((!(s.type = TokenType.name : Bool)) && rest.all
        (fun s => !(s.type = TokenType.name : Bool))) = true := by
      have := hn
      unfold stmtsNoName at this
      rw [List.all_cons] at this
      exact this
    rw [Bool.and_eq_true] at hn3
    obtain ⟨hn1, hn2⟩ := hn3
    have hne : s.type ≠ TokenType.name := by simpa using hn1
    have hn2b : stmtsNoName rest = true := hn2
    unfold caStatements at h
    cases hc : caStatement widths st s with
    | none => rw [hc] at h; exact absurd h (by simp)
    | some p1 =>
      cases p1 with
      | mk s2 stm =>
        rw [hc] at h
        dsimp only at h
        cases hr : caStatements widths rest stm with
        | none => rw [hr] at h; exact absurd h (by simp)
        | some p2 =>
          cases p2 with
          | mk rest2 st3 =>
            rw [hr] at h
            have h6 : st3 = st2 := congrArg Prod.snd (Option.some.inj h)
            have q1 := caStatement_preserves widths st s s2 stm hne hc
            have q2 := caStatements_preserves widths rest stm rest2 st3 hr hn2b
            rw [← h6]
            exact ⟨q2.1.trans q1.1, q2.2.trans q1.2⟩

/-- A body item free of name rows never changes the remembered name length
nor the indentation depth (a loop raises the depth and lowers it back). -/
theorem caBodyItem_preserves (widths : List Nat) (st : CAState) :
    ∀ (i : BodyItem) (i2 : BodyItem) (st2 : CAState),
      caBodyItem widths st i = some (i2, st2) → bodyItemNoName i = true →
      st2.testNameLen = st.testNameLen ∧ st2.indent = st.indent
  | BodyItem.stmt s, i2, st2, h, hn => by
    unfold caBodyItem at h
    dsimp only at h
    cases hc : caStatement widths st s with
    | none => rw [hc] at h; exact absurd h (by simp)
    | some p1 =>
      cases p1 with
      | mk s2 stm =>
        rw [hc] at h
        have h6 : stm = st2 := congrArg Prod.snd (Option.some.inj h)
        have hne : s.type ≠ TokenType.name := by simpa [bodyItemNoName] using hn
        rw [← h6]
        exact caStatement_preserves widths st s s2 stm hne hc
  | BodyItem.loop hh b e, i2, st2, h, hn => by
    unfold caBodyItem at h
    dsimp only at h
    have hn3 : ((!(hh.type = TokenType.name : Bool)) && stmtsNoName b &&
        (!(e.type = TokenType.name : Bool))) = true := hn
    rw [Bool.and_eq_true, Bool.and_eq_true] at hn3
    obtain ⟨⟨hnh, hnb⟩, hnee⟩ := hn3
    cases h1 : caStatement widths (CAState.mk st.testNameLen (st.indent + 1) st.seen) hh with
    | none => rw [h1] at h; exact absurd h (by simp)
    | some p1 =>
      cases p1 with
      | mk hh2 st2a =>
        rw [h1] at h
        dsimp only at h
        cases h2 : caStatements widths b st2a with
        | none => rw [h2] at h; exact absurd h (by simp)
        | some p2 =>
          cases p2 with
          | mk b2 st3 =>
            rw [h2] at h
            dsimp only at h
            cases h3 : caStatement widths st3 e with
            | none => rw [h3] at h; exact absurd h (by simp)
            | some p3 =>
              cases p3 with
              | mk e2 st4 =>
                rw [h3] at h
                have h6 : CAState.mk st4.testNameLen (st4.indent - 1) st4.seen = st2 :=
                  congrArg Prod.snd (Option.some.inj h)
                have q1 := caStatement_preserves widths _ hh hh2 st2a (by simpa using hnh) h1
                have q2 := caStatements_preserves widths b st2a b2 st3 h2 hnb
                have q3 := caStatement_preserves widths st3 e e2 st4 (by simpa using hnee) h3
                have e1 : st4.testNameLen = st.testNameLen := by
                  rw [q3.1, q2.1, q1.1]
                have e2i : st4.indent = st.indent + 1 := by
                  rw [q3.2, q2.2, q1.2]
                rw [← h6]
                refine ⟨e1, ?_⟩
                show st4.indent - 1 = st.indent
                omega

/-- A body free of name rows never changes the remembered name length nor
the indentation depth. -/
theorem caBodyItems_preserves (widths : List Nat) :
    ∀ (l : List BodyItem) (st : CAState) (l2 : List BodyItem) (st2 : CAState),
      caBodyItems widths l st = some (l2, st2) → bodyNoName l = true →
      st2.testNameLen = st.testNameLen ∧ st2.indent = st.indent
  | [], st, l2, st2, h, _ => by
    have h5 : st = st2 := congrArg Prod.snd (Option.some.inj h)
    rw [← h5]
    exact ⟨rfl, rfl⟩
  | i :: rest, st, l2, st2, h, hn => by
    have hn3 : (bodyItemNoName i && rest.all bodyItemNoName) = true := by
      have := hn
      unfold bodyNoName at this
      rw [List.all_cons] at this
      exact this
    rw [Bool.and_eq_true] at hn3
    obtain ⟨hn1, hn2⟩ := hn3
    have hn2b : bodyNoName rest = true := hn2
    unfold caBodyItems at h
    cases hc : caBodyItem widths st i with
    | none => rw [hc] at h; exact absurd h (by simp)
    | some p1 =>
      cases p1 with
      | mk i2a stm =>
        rw [hc] at h
        dsimp only at h
        cases hr : caBodyItems widths rest stm with
        | none => rw [hr] at h; exact absurd h (by simp)
        | some p2 =>
          cases p2 with
          | mk rest2 st3 =>
            rw [hr] at h
            have h6 : st3 = st2 := congrArg Prod.snd (Option.some.inj h)
            have q1 := caBodyItem_preserves widths st i i2a stm hc hn1
            have q2 := caBodyItems_preserves widths rest stm rest2 st3 hr hn2b
            rw [← h6]
            exact ⟨q2.1.trans q1.1, q2.2.trans q1.2⟩

/-- For a short remembered name and a list of non-name statements, the
source aligner equals the spec reading. -/
theorem caStatements_spec (widths : List Nat) :
    ∀ (l : List Statement) (st : CAState), st.testNameLen < 18 → stmtsNoName l = true →
      caStatements widths l st = caStatementsSpec widths l st
  | [], st, h, hn => rfl
  | s :: rest, st, h, hn => by
    have hn3 : ((!(s.type = TokenType.name : Bool)) && rest.all
        (fun s => !(s.type = TokenType.name : Bool))) = true := by
      have := hn
      unfold stmtsNoName at this
      rw [List.all_cons] at this
      exact this
    rw [Bool.and_eq_true] at hn3
    obtain ⟨hn1, hn2⟩ := hn3
    have hne : s.type ≠ TokenType.name := by simpa using hn1
    have hn2b : stmtsNoName rest = true := hn2
    unfold caStatements caStatementsSpec
    rw [caStatement_spec widths st s h]
    cases hc : caStatementSpec widths st s with
    | none => rfl
    | some p =>
      cases p with
      | mk s2 st2 =>
        dsimp only
        have hc2 : caStatement widths st s = some (s2, st2) := by
          rw [caStatement_spec widths st s h, hc]
        have q := caStatement_preserves widths st s s2 st2 hne hc2
        rw [caStatements_spec widths rest st2 (by rw [q.1]; exact h) hn2b]

/-- For a short remembered name and a name-free body item, the source
aligner equals the spec reading. -/
theorem caBodyItem_spec (widths : List Nat) (st : CAState) (h : st.testNameLen < 18) :
    ∀ (i : BodyItem), bodyItemNoName i = true →
      caBodyItem widths st i = caBodyItemSpec widths st i
  | BodyItem.stmt s, hn => by
    unfold caBodyItem caBodyItemSpec
    dsimp only
    rw [caStatement_spec widths st s h]
  | BodyItem.loop hh b e, hn => by
    have hn3 : ((!(hh.type = TokenType.name : Bool)) && stmtsNoName b &&
        (!(e.type = TokenType.name : Bool))) = true := hn
    rw [Bool.and_eq_true, Bool.and_eq_true] at hn3
    obtain ⟨⟨hnh, hnb⟩, hnee⟩ := hn3
    unfold caBodyItem caBodyItemSpec
    dsimp only
    rw [caStatement_spec widths (CAState.mk st.testNameLen (st.indent + 1) st.seen) hh h]
    cases h1 : caStatementSpec widths (CAState.mk st.testNameLen (st.indent + 1) st.seen) hh with
    | none => rfl
    | some p1 =>
      cases p1 with
      | mk hh2 st2a =>
        dsimp only
        have h1b : caStatement widths (CAState.mk st.testNameLen (st.indent + 1) st.seen) hh =
            some (hh2, st2a) := by
          rw [caStatement_spec widths (CAState.mk st.testNameLen (st.indent + 1) st.seen) hh h, h1]
        have q1 := caStatement_preserves widths _ hh hh2 st2a (by simpa using hnh) h1b
        have h2a : st2a.testNameLen < 18 := by rw [q1.1]; exact h
        rw [caStatements_spec widths b st2a h2a hnb]
        cases h2 : caStatementsSpec widths b st2a with
        | none => rfl
        | some p2 =>
          cases p2 with
          | mk b2 st3 =>
            dsimp only
            have h2b : caStatements widths b st2a = some (b2, st3) := by
              rw [caStatements_spec widths b st2a h2a hnb, h2]
            have q2 := caStatements_preserves widths b st2a b2 st3 h2b hnb
            have h3a : st3.testNameLen < 18 := by rw [q2.1]; exact h2a
            rw [caStatement_spec widths st3 e h3a]

/-- For a short remembered name and a name-free body, the source aligner
equals the spec reading. -/
theorem caBodyItems_spec (widths : List Nat) :
    ∀ (l : List BodyItem) (st : CAState), st.testNameLen < 18 → bodyNoName l = true →
      caBodyItems widths l st = caBodyItemsSpec widths l st
  | [], st, h, hn => rfl
  | i :: rest, st, h, hn => by
    have hn3 : (bodyItemNoName i && rest.all bodyItemNoName) = true := by
      have := hn
      unfold bodyNoName at this
      rw [List.all_cons] at this
      exact this
    rw [Bool.and_eq_true] at hn3
    obtain ⟨hn1, hn2⟩ := hn3
    have hn2b : bodyNoName rest = true := hn2
    unfold caBodyItems caBodyItemsSpec
    rw [caBodyItem_spec widths st h i hn1]
    cases hc : caBodyItemSpec widths st i with
    | none => rfl
    | some p =>
      cases p with
      | mk i2 st2 =>
        dsimp only
        have hc2 : caBodyItem widths st i = some (i2, st2) := by
          rw [caBodyItem_spec widths st h i hn1, hc]
        have q := caBodyItem_preserves widths st i i2 st2 hc2 hn1
        rw [caBodyItems_spec widths rest st2 (by rw [q.1]; exact h) hn2b]

/-- C4: a block whose name is shorter than 18 characters is aligned exactly
as the spec reading prescribes: the name length is subtracted from the
expected position once, at the first token of the first data line of the
block, never again within the block, and the gating flag is cleared at
every block entry (the clearing is the first step of both `caBlock` and
`caBlockSpec`). -/
theorem c4_short_name_fires_once
    (widths : List Nat) (st : CAState) (b : TestOrKeyword) (nt : Tok) (nts : List Tok)
    (h1 : b.name.type = TokenType.name)
    (h2 : b.name.tokens = nt :: nts)
    (h3 : nt.value.data.length < 18)
    (h4 : bodyNoName b.body = true) :
    caBlock widths st b = caBlockSpec widths st b := by
  have hneq : b.name.type ≠ TokenType.testcaseHeader := by
    rw [h1]
    intro hx
    cases hx
  have hname : caStatement widths (CAState.mk st.testNameLen st.indent false) b.name =
      some (b.name, CAState.mk nt.value.data.length st.indent false) := by
    unfold caStatement
    rw [if_neg hneq, if_pos h1, h2]
  have hnameS : caStatementSpec widths (CAState.mk st.testNameLen st.indent false) b.name =
      some (b.name, CAState.mk nt.value.data.length st.indent false) := by
    unfold caStatementSpec
    rw [if_neg hneq, if_pos h1, h2]
  unfold caBlock caBlockSpec
  rw [hname, hnameS]
  dsimp only
  rw [caBodyItems_spec widths b.body (CAState.mk nt.value.data.length st.indent false) h3 h4]

/-- Witness for C4: a concrete block with a short name, aligned by source
and spec reading alike. -/
theorem c4_witness :
    caBlock [9, 6] (CAState.mk 0 0 false)
        (TestOrKeyword.mk (Statement.mk TokenType.name [Tok.mk TokenType.name "T"])
          [BodyItem.stmt (Statement.mk TokenType.keyword
            [Tok.mk TokenType.keyword "Log", Tok.mk TokenType.other "hi"])]) =
      caBlockSpec [9, 6] (CAState.mk 0 0 false)
        (TestOrKeyword.mk (Statement.mk TokenType.name [Tok.mk TokenType.name "T"])
          [BodyItem.stmt (Statement.mk TokenType.keyword
            [Tok.mk TokenType.keyword "Log", Tok.mk TokenType.other "hi"])]) :=
  c4_short_name_fires_once [9, 6] (CAState.mk 0 0 false) _
    (Tok.mk TokenType.name "T") [] rfl rfl (by decide) (by decide)

/-- C6: every token processed by the column aligner receives a (never
negative) number of prepended spaces and keeps its original text as a
suffix — it is never truncated; moreover one loop step pads with exactly
`(expPos + width - linePos).toNat` spaces, the `Int.toNat` clamp realizing
`max (expPos - linePos) 0` after the width is consumed. -/
theorem c6_padding_nonnegative_no_truncation :
    (∀ (n : Nat) (line : List Tok) (ws : List Nat) (lp : Nat) (ep : Int) (seen : Bool),
      List.Forall₂ (fun tin tout =>
        tout.type = tin.type ∧ ∃ k : Nat, tout.value = spaces k ++ tin.value)
        line (alignTokens n line ws lp ep seen).1) ∧
    (∀ (n : Nat) (t : Tok) (ts : List Tok) (w : Nat) (ws : List Nat) (lp : Nat) (ep : Int),
      (alignTokens n (t :: ts) (w :: ws) lp ep true).1.head? =
        some (Tok.mk t.type (spaces (ep + w - lp).toNat ++ t.value))) := by
  constructor
  · intro n line ws lp ep seen
    exact alignTokens_forall2 n line ws lp ep seen
  · intro n t ts w ws lp ep
    simp [alignTokens]

/-- C10: a token of a logical line whose position is at or beyond the length
of the (possibly merged) width list is left completely unchanged by the
column aligner. -/
theorem c10_tokens_beyond_widths_unchanged
    (widths : List Nat) (n indent : Nat) (seen : Bool) (line out : List Tok) (b : Bool)
    (ws : List Nat)
    (h1 : effectiveWidths widths indent line = some ws)
    (h2 : alignLine widths n indent seen line = some (out, b)) :
    ∀ i : Nat, ws.length ≤ i → List.get? out i = List.get? line i := by
  intro i hi
  unfold alignLine at h2
  rw [h1] at h2
  simp only [Option.map_some'] at h2
  have h4 : (alignTokens n line ws 0 0 seen).1 = out := by
    rw [Option.some.inj h2]
  rw [← h4]
  exact alignTokens_skip n line ws 0 0 seen i hi

/-- Witness for C10 at a concrete line: the token after the single width is
untouched. -/
theorem c10_witness :
    List.get? [Tok.mk TokenType.keyword "     Log", Tok.mk TokenType.other "hi"] 1 =
      List.get? [Tok.mk TokenType.keyword "Log", Tok.mk TokenType.other "hi"] 1 :=
  c10_tokens_beyond_widths_unchanged [5] 0 0 false
    [Tok.mk TokenType.keyword "Log", Tok.mk TokenType.other "hi"]
    [Tok.mk TokenType.keyword "     Log", Tok.mk TokenType.other "hi"] true [5]
    (by decide) (by decide) 1 (by decide)

/-- One counter update at a column at least 1 preserves the head entry,
never shrinks the array and keeps it nonempty. -/
theorem cwcUpdate_head_len (ws : List Nat) (col n : Nat) (h1 : 1 ≤ col) (h2 : ws ≠ []) :
    (cwcUpdate ws col n).head? = ws.head? ∧ ws.length ≤ (cwcUpdate ws col n).length ∧
      cwcUpdate ws col n ≠ [] := by
  unfold cwcUpdate
  by_cases hc : ws.length ≤ col
  · rw [if_pos hc]
    cases ws with
    | nil => exact absurd rfl h2
    | cons a t => exact ⟨rfl, by simp, by simp⟩
  · rw [if_neg hc]
    by_cases hlt : ws.getD col 0 < n
    · rw [if_pos hlt]
      cases ws with
      | nil => exact absurd rfl h2
      | cons a t =>
        cases col with
        | zero => exact absurd h1 (by simp)
        | succ k => exact ⟨by simp [List.set], by simp, by simp [List.set]⟩
    · rw [if_neg hlt]
      exact ⟨rfl, Nat.le_refl _, h2⟩

/-- The counter line fold preserves the head entry, never shrinks the
array and keeps it nonempty. -/
theorem cwcGo_head_len :
    ∀ (line : List Tok) (ws : List Nat) (col : Nat), 1 ≤ col → ws ≠ [] →
      (cwcGo ws col line).head? = ws.head? ∧ ws.length ≤ (cwcGo ws col line).length ∧
        cwcGo ws col line ≠ []
  | [], ws, col, h1, h2 => ⟨rfl, Nat.le_refl _, h2⟩
  | t :: ts, ws, col, h1, h2 => by
    have q1 := cwcUpdate_head_len ws col t.value.data.length h1 h2
    have q2 := cwcGo_head_len ts (cwcUpdate ws col t.value.data.length) (col + 1)
      (Nat.le_succ_of_le h1) q1.2.2
    unfold cwcGo
    exact ⟨q2.1.trans q1.1, q1.2.1.trans q2.2.1, q2.2.2⟩

/-- Folding the counter over a list of lines preserves the head entry,
never shrinks the array and keeps it nonempty. -/
theorem cwcFold_head_len :
    ∀ (ls : List (List Tok)) (ws : List Nat), ws ≠ [] →
      ((ls.foldl cwcLine ws).head? = ws.head? ∧ ws.length ≤ (ls.foldl cwcLine ws).length ∧
        ls.foldl cwcLine ws ≠ [])
  | [], ws, h2 => ⟨rfl, Nat.le_refl _, h2⟩
  | l :: ls, ws, h2 => by
    have q1 := cwcGo_head_len l ws 1 (Nat.le_refl 1) h2
    have q2 := cwcFold_head_len ls (cwcLine ws l) q1.2.2
    rw [List.foldl_cons]
    exact ⟨q2.1.trans q1.1, q1.2.1.trans q2.2.1, q2.2.2⟩

/-- One counter statement preserves the head entry, never shrinks the
array and keeps it nonempty. -/
theorem cwcStatement_head_len (ws : List Nat) (s : Statement) (ws2 : List Nat)
    (h : cwcStatement ws s = some ws2) (h2 : ws ≠ []) :
    ws2.head? = ws.head? ∧ ws.length ≤ ws2.length ∧ ws2 ≠ [] := by
  unfold cwcStatement at h
  by_cases ha : s.type = TokenType.name
  · rw [if_pos ha] at h
    cases hb : s.tokens with
    | nil => rw [hb] at h; exact absurd h (by simp)
    | cons t ts =>
      rw [hb] at h
      have h5 : ws = ws2 := Option.some.inj h
      rw [← h5]
      exact ⟨rfl, Nat.le_refl _, h2⟩
  · rw [if_neg ha] at h
    by_cases hc : s.type = TokenType.testcaseHeader
    · rw [if_pos hc] at h
      have h5 : ws = ws2 := Option.some.inj h
      rw [← h5]
      exact ⟨rfl, Nat.le_refl _, h2⟩
    · rw [if_neg hc] at h
      have h5 : (linesOf s.tokens).foldl cwcLine ws = ws2 := Option.some.inj h
      rw [← h5]
      exact cwcFold_head_len (linesOf s.tokens) ws h2

/-- The counter over a statement list preserves the head entry, never
shrinks the array and keeps it nonempty. -/
theorem cwcStatements_head_len :
    ∀ (l : List Statement) (ws ws2 : List Nat),
      cwcStatements ws l = some ws2 → ws ≠ [] →
      ws2.head? = ws.head? ∧ ws.length ≤ ws2.length ∧ ws2 ≠ []
  | [], ws, ws2, h, h2 => by
    have h5 : ws = ws2 := Option.some.inj h
    rw [← h5]
    exact ⟨rfl, Nat.le_refl _, h2⟩
  | s :: rest, ws, ws2, h, h2 => by
    unfold cwcStatements at h
    cases hc : cwcStatement ws s with
    | none => rw [hc] at h; exact absurd h (by simp)
    | some wsm =>
      rw [hc] at h
      have q1 := cwcStatement_head_len ws s wsm hc h2
      have q2 := cwcStatements_head_len rest wsm ws2 h q1.2.2
      exact ⟨q2.1.trans q1.1, q1.2.1.trans q2.2.1, q2.2.2⟩

/-- C2 counterexample: on a concrete two-column test-case section the width
list reaching the column aligner is the counter output minus its LAST
entry, not minus the name-column entry (entry 0): the claim predicted
`[6, 2]`, the code passes `[9, 6]`. -/
theorem c2_counterexample :
    counterWidths demoTcSec = some [9, 6, 2] ∧
    alignerInput demoTcSec = some [9, 6] ∧
    alignerInput demoTcSec ≠ (counterWidths demoTcSec).map (fun ws => ws.drop 1) := by
  decide

/-- C2 amended: the counter width array has one entry per column including
the reserved name column (entry 0 stays the first header title length and
the array is at least as long as the header); it reaches the column aligner
with the LAST entry dropped, so the name-column entry is included (it stays
the head of what the aligner receives). -/
theorem c2_amended (sec : Section) (ws : List Nat)
    (h1 : counterWidths sec = some ws) (h2 : 1 < sec.header.length) :
    alignerInput sec = some ws.dropLast ∧
    sec.header.length ≤ ws.length ∧
    ws.head? = (sec.header.map (fun t => t.value.data.length)).head? ∧
    ws.dropLast.head? = ws.head? := by
  have hlenmap : (sec.header.map (fun t => t.value.data.length)).length = sec.header.length :=
    List.length_map _ _
  have hne : sec.header.map (fun t => t.value.data.length) ≠ [] := by
    intro hx
    rw [hx] at hlenmap
    rw [← hlenmap] at h2
    exact absurd h2 (by simp)
  have h1b : cwcStatements (sec.header.map (fun t => t.value.data.length))
      (sectionStatements sec) = some ws := h1
  have q := cwcStatements_head_len (sectionStatements sec) _ ws h1b hne
  have hwslen : 1 < ws.length := by
    have := q.2.1
    omega
  refine ⟨?_, ?_, q.1, ?_⟩
  · unfold alignerInput
    rw [h1]
    rfl
  · have := q.2.1
    omega
  · cases ws with
    | nil => exact absurd hwslen (by simp)
    | cons a t =>
      cases t with
      | nil => exact absurd hwslen (by simp)
      | cons b t2 => simp [List.dropLast]

/-- Witness for C2 at the concrete section. -/
theorem c2_witness :
    alignerInput demoTcSec = some (List.dropLast [9, 6, 2]) ∧
    demoTcSec.header.length ≤ List.length [9, 6, 2] ∧
    List.head? [9, 6, 2] = (demoTcSec.header.map (fun t => t.value.data.length)).head? ∧
    (List.dropLast [9, 6, 2]).head? = List.head? [9, 6, 2] :=
  c2_amended demoTcSec [9, 6, 2] (by decide) (by decide)

/-- C1 counterexample: a keyword-table section with a multi-column header
is NOT given the width-counter and column-aligner passes: the aligner
returns it untouched, while the very same content under a test-case header
is modified. -/
theorem c1_counterexample :
    alignerVisitSection demoKwSec = some demoKwSec ∧
    alignerVisitSection demoTcSec ≠ some demoTcSec := by
  decide

/-- C1 amended: only test-case-table sections (with a multi-column header)
receive the width-counter and column-aligner passes; a keyword-table
section is not visited by the aligner pass at all and comes back
unchanged. -/
theorem c1_amended_keyword_section_untouched (sec : Section)
    (h : sec.type = TokenType.keywordHeader) :
    alignerVisitSection sec = some sec := by
  unfold alignerVisitSection
  rw [h]
  rw [if_neg (by decide), if_neg (by decide)]

/-- Witness for C1 at the concrete keyword section. -/
theorem c1_witness : alignerVisitSection demoKwSec = some demoKwSec :=
  c1_amended_keyword_section_untouched demoKwSec rfl

/-- C3 counterexample: a document whose test-case section has zero header
columns is rendered without any fault: the pipeline produces output. -/
theorem c3_counterexample :
    writeModel (WConfig.mk false 4) [zeroSec] = some "*** Test Cases ***\nT\n    Log    hi\n" := by
  decide

/-- C3 amended: a test-case table section with zero header columns is not
detected or signalled: the aligner simply skips it (its header is not
longer than one) and the pipeline still produces output. -/
theorem c3_amended :
    (∀ sec : Section, sec.type = TokenType.testcaseHeader → sec.header = [] →
      alignerVisitSection sec = some sec) ∧
    writeModel (WConfig.mk false 4) [zeroSec] ≠ none := by
  constructor
  · intro sec hty hhd
    unfold alignerVisitSection
    rw [hty, hhd]
    rw [if_neg (by decide), if_pos rfl, if_neg (by simp)]
  · decide

/-- Witness for C3 at the concrete zero-column section. -/
theorem c3_witness : alignerVisitSection zeroSec = some zeroSec :=
  c3_amended.1 zeroSec rfl rfl

/-- C5: the trailing newline after a block name line is suppressed exactly
when the enclosing section is a test-case table whose header has more than
one column AND the rendered block name is strictly shorter than 18
characters; in every other case the name line keeps its newline. -/
theorem c5_name_newline_suppression (sec : Section) (nameLen : Nat) :
    writeNewlineFlag (testCaseSectionHeaders sec) nameLen = false ↔
      (sec.type = TokenType.testcaseHeader ∧ 1 < sec.header.length ∧ nameLen < 18) := by
  unfold writeNewlineFlag testCaseSectionHeaders
  by_cases h1 : sec.type = TokenType.testcaseHeader ∧ 1 < sec.header.length
  · rw [if_pos h1]
    have hne2 : sec.header ≠ [] := by
      intro hx
      rw [hx] at h1
      exact absurd h1.2 (by simp)
    simp [truthy, h1.1, h1.2, Nat.not_le, hne2]
  · rw [if_neg h1]
    simp only [truthy, Bool.not_false, Bool.true_or]
    constructor
    · intro hx
      exact absurd hx (by simp)
    · intro hx
      exact absurd ⟨hx.1, hx.2.1⟩ h1

/-- C7: statement rendering joins token texts with the configured
separator (a literal pipe gap in pipe mode, `separatingSpaceCount` spaces
in space mode), wraps the row in pipes in pipe mode and right-trims it in
space mode; in particular the two-token call renders as required in both
dialects. -/
theorem c7_statement_rendering :
    (∀ n : Nat, wSeparator (WConfig.mk true n) = " | ") ∧
    (∀ n : Nat, wSeparator (WConfig.mk false n) = spaces n) ∧
    renderRow (WConfig.mk true 4) ""
      [Tok.mk TokenType.keyword "Log", Tok.mk TokenType.other "hello"] = "| Log | hello |" ∧
    renderRow (WConfig.mk false 4) ""
      [Tok.mk TokenType.keyword "Log", Tok.mk TokenType.other "hello"] = "Log    hello" ∧
    writeStatementStr (WConfig.mk true 4) 0 true (Statement.mk TokenType.keyword
      [Tok.mk TokenType.keyword "Log", Tok.mk TokenType.other "hello"]) = "| Log | hello |\n" ∧
    writeStatementStr (WConfig.mk false 4) 0 true (Statement.mk TokenType.keyword
      [Tok.mk TokenType.keyword "Log", Tok.mk TokenType.other "hello"]) = "Log    hello\n" := by
  refine ⟨fun n => rfl, fun n => rfl, ?_, ?_, ?_, ?_⟩ <;> decide

/-- C8 counterexample: the claim says the whole TRIMMED text is title-cased
in the non-bracket branch, but the code title-cases the raw text without
trimming: a name with a leading space keeps it. -/
theorem c8_counterexample :
    settingCleanerVisit (Statement.mk TokenType.settingName
        [Tok.mk TokenType.settingName " library"]) =
      some (Statement.mk TokenType.settingName
        [Tok.mk TokenType.settingName " Library"]) ∧
    (" Library" : String) ≠ "Library" := by
  decide

/-- C8 amended: only the first token of a setting statement is rewritten;
trimming is used only for the bracket test: in the bracket branch the first
and last characters of the RAW text are dropped and the remainder trimmed,
lowercased, title-cased and rewrapped, otherwise the RAW text is lowercased
and title-cased unchanged; on whitespace-free input this matches the claim
(`[tags]` becomes `[Tags]`, `library` becomes `Library`). -/
theorem c8_amended :
    (∀ (s : Statement) (t : Tok) (ts : List Tok),
      s.type ∈ SETTING_TOKENS → s.tokens = t :: ts →
      settingCleanerVisit s =
        some (Statement.mk s.type (Tok.mk t.type (cleanSettingName t.value) :: ts))) ∧
    (∀ s : Statement, s.type ∉ SETTING_TOKENS → settingCleanerVisit s = some s) ∧
    cleanSettingName "[tags]" = "[Tags]" ∧
    cleanSettingName "library" = "Library" := by
  refine ⟨?_, ?_, by decide, by decide⟩
  · intro s t ts h1 h2
    unfold settingCleanerVisit
    rw [if_pos h1, h2]
  · intro s h1
    unfold settingCleanerVisit
    rw [if_neg h1]

/-- Witness for C8 at a concrete setting statement. -/
theorem c8_witness :
    settingCleanerVisit (Statement.mk TokenType.settingName
        [Tok.mk TokenType.settingName "[tags]"]) =
      some (Statement.mk TokenType.settingName
        [Tok.mk TokenType.settingName (cleanSettingName "[tags]")]) :=
  c8_amended.1 (Statement.mk TokenType.settingName [Tok.mk TokenType.settingName "[tags]"])
    (Tok.mk TokenType.settingName "[tags]") [] (by decide) rfl

/-- C9 counterexample: in a table-header statement, a separator that
follows another separator (hence does NOT immediately follow a header-title
token) still contributes its chopped text to the preceding header token:
the claim predicted the header value `Haaaa`, the code produces
`Haaaabbbb`. -/
theorem c9_counterexample :
    (separatorRemoverVisit (Statement.mk TokenType.testcaseHeader
        [Tok.mk TokenType.testcaseHeader "H", Tok.mk TokenType.separator "aaaaWXYZ",
         Tok.mk TokenType.separator "bbbbWXYZ"])).tokens =
      [Tok.mk TokenType.testcaseHeader "Haaaabbbb"] ∧
    ("Haaaabbbb" : String) ≠ "Haaaa" := by
  decide

/-- C9 amended: every separator, end-of-line and legacy-indent token is
removed from every statement; in a table-header statement each header-title
token first absorbs, minus its trailing four characters per token, the
whole run of CONSECUTIVE separator tokens that follows it (not only a
single immediately following separator), and separators outside such runs
contribute nothing; non-header statements are only filtered. -/
theorem c9_amended :
    (∀ (s : Statement) (t : Tok), t ∈ (separatorRemoverVisit s).tokens →
      isStructural t = false) ∧
    (∀ (v : String) (ts : List Tok),
      addHeaderWhitespace (Tok.mk TokenType.testcaseHeader v :: ts) =
        Tok.mk TokenType.testcaseHeader (v ++ sepRunExtension ts) :: addHeaderWhitespace ts) ∧
    (∀ (seps rest : List Tok),
      (∀ t ∈ seps, t.type = TokenType.separator) →
      (∀ (t2 : Tok) (rest2 : List Tok), rest = t2 :: rest2 → t2.type ≠ TokenType.separator) →
      sepRunExtension (seps ++ rest) =
        (seps.map (fun t => chop4 t.value)).foldr (fun a b => a ++ b) "") ∧
    (∀ s : Statement, s.type ≠ TokenType.testcaseHeader →
      (separatorRemoverVisit s).tokens = s.tokens.filter (fun t => !isStructural t)) := by
  refine ⟨?_, ?_, ?_, ?_⟩
  · intro s t ht
    unfold separatorRemoverVisit at ht
    have := List.of_mem_filter ht
    simpa using this
  · intro v ts
    rw [addHeaderWhitespace, if_pos rfl]
  · intro seps
    induction seps with
    | nil =>
      intro rest _ hrest
      cases rest with
      | nil => rfl
      | cons t2 rest2 =>
        have hns := hrest t2 rest2 rfl
        rw [List.nil_append, sepRunExtension, if_neg hns]
        rfl
    | cons t seps ih =>
      intro rest hall hrest
      have h1 : t.type = TokenType.separator := hall t (by simp)
      have h2 : ∀ t2 ∈ seps, t2.type = TokenType.separator := by
        intro t2 h3
        exact hall t2 (by simp [h3])
      rw [List.cons_append, sepRunExtension, if_pos h1, ih rest h2 hrest]
      rfl
  · intro s h1
    unfold separatorRemoverVisit
    rw [if_neg h1]

/-- Witness for C9: the removal guarantee and the run semantics at concrete
inputs. -/
theorem c9_witness :
    sepRunExtension
        ([Tok.mk TokenType.separator "aaaaWXYZ", Tok.mk TokenType.separator "bbbbWXYZ"] ++
          [Tok.mk TokenType.eol "\n"]) =
      (([Tok.mk TokenType.separator "aaaaWXYZ",
         Tok.mk TokenType.separator "bbbbWXYZ"]).map (fun t => chop4 t.value)).foldr
        (fun a b => a ++ b) "" :=
  c9_amended.2.2.1 [Tok.mk TokenType.separator "aaaaWXYZ", Tok.mk TokenType.separator "bbbbWXYZ"]
    [Tok.mk TokenType.eol "\n"] (by decide)
    (by
      intro t2 rest2 hx
      injection hx with hx1 hx2
      rw [← hx1]
      decide)

end Robot
